import Mathlib

/-!
Shallow embedding of the front-lifecycle scheduler of GPUQREngine
(src/SPQR/GPUQREngine/Source/Scheduler/Scheduler_Front.cpp):
`Scheduler::activateFront`, `Scheduler::pullFrontData`,
`Scheduler::finishFront`, together with the active-set permutation pair
`afPerm`/`afPinv`, the per-front `FrontDataPulled` flags and the per-front
CUDA events `eventFrontDataReady`/`eventFrontDataPulled`.

CUDA events are modelled as a four-state signal: a slot that was never
created (`absent`), a created-and-recorded but not yet completed event
(`pending`), a completed event (`signaled`), and a destroyed event
(`destroyed`).  `cudaEventQuery` is modelled as a partial query: it is
defined (returns `some`) only on a live event, `some true` exactly when the
event has completed (`cudaSuccess`), and it is undefined (`none`) on a
handle that was never created or was already destroyed, since the C code
would then read an uninitialized or stale handle.

The sentinel `EMPTY` of the integer array `afPinv` is modelled by `none` of
an `Option Nat`.  Issued device-to-host transfers are recorded in a log
`transfers` (front id paired with the number of scalar values moved), so
that "no transfer was issued" is state equality on the log.
-/

namespace GQE

/-- Pointwise update of a table, modelling a single array store. -/
def upd {α : Type} (g : Nat → α) (i : Nat) (v : α) : Nat → α :=
  fun j => if j = i then v else g j

@[simp] theorem upd_same {α : Type} (g : Nat → α) (i : Nat) (v : α) :
    upd g i v i = v := by
  simp [upd]

@[simp] theorem upd_ne {α : Type} (g : Nat → α) (i : Nat) (v : α) (j : Nat)
    (h : j ≠ i) : upd g i v j = g j := by
  simp [upd, h]

/-- Lifecycle states of a front that Scheduler_Front.cpp assigns; `OTHER`
stands for the remaining factorization sub-phases, which this file never
assigns or inspects. -/
inductive FrontState where
  | ASSEMBLE_S
  | PARENT_WAIT
  | FACTORIZE
  | OTHER
deriving DecidableEq

/-- State of one CUDA event slot. -/
inductive Sig where
  | absent
  | pending
  | signaled
  | destroyed
deriving DecidableEq

/-- Modelled from the spec: non-blocking query of a completion signal
(cudaEventQuery).  `some true` when the event has completed (cudaSuccess),
`some false` when it is still pending (cudaErrorNotReady), and `none`
(undefined) on a handle that was never created or was already destroyed. -/
def Sig.query : Sig → Option Bool
  | .signaled => some true
  | .pending => some false
  | .absent => none
  | .destroyed => none

/-- External completion of a pending event (the accelerator finishing the
work recorded on it). -/
def Sig.fire : Sig → Sig
  | .pending => .signaled
  | s => s

/-- Modelled from the spec: the `SparseMeta` fields of a front that
Scheduler_Front.cpp reads (`pushOnly`, `cm`); the class definition lives in
a header that is not part of the sources. -/
structure SparseMeta where
  pushOnly : Bool
  cm : Nat

/-- Modelled from the spec: the front descriptor fields and capability
predicates Scheduler_Front.cpp reads.  `isDense`, `isStaged` and
`getNumRValues` are opaque attributes fixed by the symbolic analysis; the
scheduler only reads them and writes `state`. -/
structure Front where
  fn : Nat
  isDense : Bool
  isStaged : Bool
  getNumRValues : Nat
  sparseMeta : SparseMeta
  state : FrontState

/-- Modelled from the spec: the push-only capability predicate of a front
(`Front::isPushOnly`), reading the `pushOnly` flag of its sparse
metadata. -/
def Front.isPushOnly (fr : Front) : Bool := fr.sparseMeta.pushOnly

/-- The scheduler state touched by Scheduler_Front.cpp: the front list, the
active-set permutation pair, the pulled flags, the two per-front event
tables, and a log of issued device-to-host transfers. -/
structure Sched where
  frontList : Nat → Front
  afPerm : Nat → Nat
  afPinv : Nat → Option Nat
  numActiveFronts : Nat
  FrontDataPulled : Nat → Bool
  eventFrontDataReady : Nat → Sig
  eventFrontDataPulled : Nat → Sig
  transfers : List (Nat × Nat)

/-- Scheduler::activateFront: if the front is already active return with no
change; otherwise append it to the active permutation, set its inverse slot,
bump the count, and initialize its factorization state. -/
def activateFront (s : Sched) (f : Nat) : Sched :=
  if (s.afPinv f).isSome then s
  else
    let front := s.frontList f
    let newState :=
      if front.isDense then FrontState.FACTORIZE
      else if front.sparseMeta.pushOnly then FrontState.PARENT_WAIT
      else FrontState.ASSEMBLE_S
    { s with
      afPerm := upd s.afPerm s.numActiveFronts f
      afPinv := upd s.afPinv f (some s.numActiveFronts)
      numActiveFronts := s.numActiveFronts + 1
      frontList := upd s.frontList f { front with state := newState } }

/-- Scheduler::pullFrontData: push-only fronts and already-pulled fronts
return true at once; otherwise the ready event is queried without blocking
(undefined if that event does not exist), and on success it is destroyed,
the pulled event is created, the value count is computed and the transfer
issued, and the pulled flag is set. -/
def pullFrontData (s : Sched) (f : Nat) : Option (Bool × Sched) :=
  let front := s.frontList f
  if front.isPushOnly then some (true, s)
  else if s.FrontDataPulled f then some (true, s)
  else
    match (s.eventFrontDataReady f).query with
    | none => none
    | some false => some (false, s)
    | some true =>
      let numValuesToPull :=
        front.getNumRValues +
          (if front.isStaged then front.sparseMeta.cm * front.fn else 0)
      some (true,
        { s with
          eventFrontDataReady := upd s.eventFrontDataReady f Sig.destroyed
          eventFrontDataPulled := upd s.eventFrontDataPulled f Sig.pending
          transfers := s.transfers ++ [(f, numValuesToPull)]
          FrontDataPulled := upd s.FrontDataPulled f true })

/-- The removal step of Scheduler::finishFront: decrement the count, and if
the set is still non-empty move the last active front into the vacated
position, updating both tables for it; finally clear `afPinv` at `f`. -/
def removeActive (s : Sched) (f : Nat) : Sched :=
  let n := s.numActiveFronts - 1
  let afPerm2 :=
    if 0 < n then upd s.afPerm ((s.afPinv f).getD 0) (s.afPerm n) else s.afPerm
  let afPinv2 :=
    if 0 < n then upd s.afPinv (s.afPerm n) (some ((s.afPinv f).getD 0))
    else s.afPinv
  { s with
    numActiveFronts := n
    afPerm := afPerm2
    afPinv := upd afPinv2 f none }

/-- Scheduler::finishFront: inactive fronts return true at once; for a
non-push-only front the pulled event is queried without blocking (undefined
if that event does not exist), returning false while it is still pending and
destroying it on success; then the front is removed from the active set by
swap-with-last. -/
def finishFront (s : Sched) (f : Nat) : Option (Bool × Sched) :=
  if (s.afPinv f).isSome = false then some (true, s)
  else
    let front := s.frontList f
    if front.isPushOnly then some (true, removeActive s f)
    else
      match (s.eventFrontDataPulled f).query with
      | none => none
      | some false => some (false, s)
      | some true =>
        some (true, removeActive
          { s with
            eventFrontDataPulled := upd s.eventFrontDataPulled f Sig.destroyed }
          f)

/-- One step of the external driving loop: the three scheduler operations,
plus the out-of-scope subsystems creating the ready event at kernel launch
and the accelerator completing either event. -/
inductive SchedOp where
  | activate (f : Nat)
  | pull (f : Nat)
  | finish (f : Nat)
  | createReady (f : Nat)
  | signalReady (f : Nat)
  | signalPulled (f : Nat)
deriving DecidableEq

/-- Apply one operation; `none` when the scheduler call is undefined. -/
def applyOp (s : Sched) : SchedOp → Option Sched
  | .activate f => some (activateFront s f)
  | .pull f => (pullFrontData s f).map Prod.snd
  | .finish f => (finishFront s f).map Prod.snd
  | .createReady f =>
      some { s with eventFrontDataReady := upd s.eventFrontDataReady f Sig.pending }
  | .signalReady f =>
      some { s with
        eventFrontDataReady := upd s.eventFrontDataReady f (s.eventFrontDataReady f).fire }
  | .signalPulled f =>
      some { s with
        eventFrontDataPulled := upd s.eventFrontDataPulled f (s.eventFrontDataPulled f).fire }

/-- Run a sequence of operations from a state. -/
def runOps (s : Sched) : List SchedOp → Option Sched
  | [] => some s
  | o :: os => (applyOp s o).bind fun s2 => runOps s2 os

/-- The documented initial state: every `afPinv` entry EMPTY, no active
fronts, no pulled flags, no events, no transfers issued. -/
def initSched (fl : Nat → Front) : Sched :=
  { frontList := fl
    afPerm := fun _ => 0
    afPinv := fun _ => none
    numActiveFronts := 0
    FrontDataPulled := fun _ => false
    eventFrontDataReady := fun _ => Sig.absent
    eventFrontDataPulled := fun _ => Sig.absent
    transfers := [] }

/-- The inductive well-formedness of the active-set index `afPerm`/`afPinv`:
active positions and ids are mutually inverse, ids past the front count are
never active, and the count of non-EMPTY inverse entries is the active
count. -/
structure ActiveInv (nf : Nat) (s : Sched) : Prop where
  perm_lt : ∀ p, p < s.numActiveFronts → s.afPerm p < nf
  perm_pinv : ∀ p, p < s.numActiveFronts → s.afPinv (s.afPerm p) = some p
  pinv_perm : ∀ f p, s.afPinv f = some p → p < s.numActiveFronts ∧ s.afPerm p = f
  pinv_dom : ∀ f, nf ≤ f → s.afPinv f = none
  count : ((Finset.range nf).filter (fun f => (s.afPinv f).isSome)).card
      = s.numActiveFronts

/-- Example dense front (id 0 in the example front list). -/
def exFrontDense : Front :=
  { fn := 4, isDense := true, isStaged := false, getNumRValues := 10
    sparseMeta := { pushOnly := false, cm := 0 }, state := FrontState.OTHER }

/-- Example sparse, staged, non-push-only front (id 1). -/
def exFrontSparse : Front :=
  { fn := 5, isDense := false, isStaged := true, getNumRValues := 7
    sparseMeta := { pushOnly := false, cm := 3 }, state := FrontState.OTHER }

/-- Example sparse push-only front (ids 2 and up). -/
def exFrontPush : Front :=
  { fn := 2, isDense := false, isStaged := false, getNumRValues := 1
    sparseMeta := { pushOnly := true, cm := 0 }, state := FrontState.OTHER }

/-- Example front list: a dense front, a sparse staged front, push-only
fronts elsewhere. -/
def exFL : Nat → Front := fun f =>
  if f = 0 then exFrontDense else if f = 1 then exFrontSparse else exFrontPush

/-- The example initial scheduler state. -/
def exInit : Sched := initSched exFL

/-- Example state after activating fronts 0 and 1. -/
def exActive : Sched := activateFront (activateFront exInit 0) 1

/-- Example state where the pulled event of front 0 is still pending. -/
def exPulledPending : Sched :=
  { exActive with
    eventFrontDataPulled := upd exActive.eventFrontDataPulled 0 Sig.pending }

/-- Example state where the pulled event of front 0 has completed. -/
def exPulledDone : Sched :=
  { exActive with
    eventFrontDataPulled := upd exActive.eventFrontDataPulled 0 Sig.signaled }

/-- Example state after finishing front 0 out of `exPulledDone`. -/
def exAfterFinish : Sched :=
  ((finishFront exPulledDone 0).map Prod.snd).getD exPulledDone

/-- Example state where the ready event of front 1 has completed. -/
def exReadyDone : Sched :=
  { exActive with
    eventFrontDataReady := upd exActive.eventFrontDataReady 1 Sig.signaled }

/-- Example state after pulling front 1 out of `exReadyDone`. -/
def exAfterPull : Sched :=
  ((pullFrontData exReadyDone 1).map Prod.snd).getD exReadyDone

/-- Example state where the ready event of front 1 is still pending. -/
def exReadyPending : Sched :=
  { exActive with
    eventFrontDataReady := upd exActive.eventFrontDataReady 1 Sig.pending }

/-- An example full lifecycle: activate three fronts, finish the push-only
one, then pull and finish the sparse one once its events complete. -/
def exOps : List SchedOp :=
  [SchedOp.activate 0, SchedOp.activate 1, SchedOp.activate 2,
   SchedOp.pull 2, SchedOp.finish 2,
   SchedOp.createReady 1, SchedOp.signalReady 1, SchedOp.pull 1,
   SchedOp.signalPulled 1, SchedOp.finish 1]

/-- The state reached by running `exOps` from the example initial state. -/
def exFinal : Sched := (runOps exInit exOps).getD exInit

/-! ### Basic lemmas about the operations -/

theorem activateFront_of_active (s : Sched) (f : Nat)
    (h : (s.afPinv f).isSome = true) : activateFront s f = s := by
  simp [activateFront, h]

theorem afPinv_activateFront_isSome (s : Sched) (f : Nat) :
    ((activateFront s f).afPinv f).isSome = true := by
  by_cases h : (s.afPinv f).isSome = true <;> simp [activateFront, h, upd]

theorem removeActive_numActive (s : Sched) (f : Nat) :
    (removeActive s f).numActiveFronts = s.numActiveFronts - 1 := rfl

theorem removeActive_afPerm_eq (s : Sched) (f p : Nat) :
    (removeActive s f).afPerm p =
      if 0 < s.numActiveFronts - 1 ∧ p = (s.afPinv f).getD 0 then
        s.afPerm (s.numActiveFronts - 1)
      else s.afPerm p := by
  by_cases hn : 0 < s.numActiveFronts - 1 <;>
    by_cases hp : p = (s.afPinv f).getD 0 <;>
      simp [removeActive, upd, hn, hp]

theorem removeActive_afPinv_eq (s : Sched) (f g : Nat) :
    (removeActive s f).afPinv g =
      if g = f then none
      else if 0 < s.numActiveFronts - 1 ∧ g = s.afPerm (s.numActiveFronts - 1)
        then some ((s.afPinv f).getD 0)
      else s.afPinv g := by
  by_cases hgf : g = f <;> by_cases hn : 0 < s.numActiveFronts - 1 <;>
    by_cases hg : g = s.afPerm (s.numActiveFronts - 1) <;>
      simp [removeActive, upd, hgf, hn, hg]

theorem removeActive_afPinv_self (s : Sched) (f : Nat) :
    (removeActive s f).afPinv f = none := by
  simp [removeActive_afPinv_eq]

/-! ### The claims -/

/-- C3: activating a front `f` that is not currently active appends `f` to
the active set (at the old count, which becomes its inverse entry, and the
count grows by one) and initializes its lifecycle state by priority: dense
fronts go to FACTORIZE, push-only sparse fronts to PARENT_WAIT, remaining
sparse fronts to ASSEMBLE_S. -/
theorem activateFront_spec (s : Sched) (f : Nat) (h : s.afPinv f = none) :
    (activateFront s f).afPerm s.numActiveFronts = f ∧
    (activateFront s f).afPinv f = some s.numActiveFronts ∧
    (activateFront s f).numActiveFronts = s.numActiveFronts + 1 ∧
    ((activateFront s f).frontList f).state =
      (if (s.frontList f).isDense = true then FrontState.FACTORIZE
       else if (s.frontList f).isPushOnly = true then FrontState.PARENT_WAIT
       else FrontState.ASSEMBLE_S) := by
  have h2 : (s.afPinv f).isSome = false := by simp [h]
  refine ⟨?_, ?_, ?_, ?_⟩ <;>
    simp [activateFront, h2, upd, Front.isPushOnly]

/-- Witness for C3: activating the dense front 0 from the initial example
state puts it at position 0 with state FACTORIZE. -/
theorem activateFront_spec_witness :
    (activateFront exInit 0).afPerm exInit.numActiveFronts = 0 ∧
    (activateFront exInit 0).afPinv 0 = some exInit.numActiveFronts ∧
    (activateFront exInit 0).numActiveFronts = exInit.numActiveFronts + 1 ∧
    ((activateFront exInit 0).frontList 0).state =
      (if (exInit.frontList 0).isDense = true then FrontState.FACTORIZE
       else if (exInit.frontList 0).isPushOnly = true then
         FrontState.PARENT_WAIT
       else FrontState.ASSEMBLE_S) :=
  activateFront_spec exInit 0 (by decide)

/-- C9: activateFront is idempotent: on an already-active front it returns
with no side effects, and a second consecutive activation of the same front
changes nothing. -/
theorem activateFront_idempotent (s : Sched) (f : Nat) :
    ((s.afPinv f).isSome = true → activateFront s f = s) ∧
    activateFront (activateFront s f) f = activateFront s f := by
  exact ⟨activateFront_of_active s f,
    activateFront_of_active (activateFront s f) f
      (afPinv_activateFront_isSome s f)⟩

/-- Witness for C9: front 0 is active in the example state, so activating it
again is the identity. -/
theorem activateFront_idempotent_witness :
    activateFront exActive 0 = exActive ∧
    activateFront (activateFront exActive 0) 0 = activateFront exActive 0 :=
  ⟨(activateFront_idempotent exActive 0).1 (by decide),
   (activateFront_idempotent exActive 0).2⟩

/-- C2: for an active, non-push-only front, finishFront returns true only if
the pulled event has been signaled, and while that event is still pending it
returns false leaving the whole scheduler state unchanged. -/
theorem finishFront_pulled_guard (s : Sched) (f : Nat)
    (h1 : (s.afPinv f).isSome = true)
    (h2 : (s.frontList f).isPushOnly = false) :
    (∀ s2, finishFront s f = some (true, s2) →
      s.eventFrontDataPulled f = Sig.signaled) ∧
    (s.eventFrontDataPulled f = Sig.pending →
      finishFront s f = some (false, s)) := by
  constructor
  · intro s2 hfin
    cases hq : s.eventFrontDataPulled f <;>
      simp [finishFront, h1, h2, hq, Sig.query] at hfin ⊢
  · intro h3
    simp [finishFront, h1, h2, h3, Sig.query]

/-- Witness for C2: with front 0 active and its pulled event pending,
finishFront returns false and changes nothing. -/
theorem finishFront_pulled_guard_witness :
    finishFront exPulledPending 0 = some (false, exPulledPending) :=
  (finishFront_pulled_guard exPulledPending 0 (by decide) (by decide)).2
    (by decide)

/-- C6: for a non-push-only, not-yet-pulled front whose ready event is still
pending, pullFrontData returns false with the state unchanged: no event is
created or destroyed, no flag is set, no transfer is issued. -/
theorem pullFrontData_notReady_noop (s : Sched) (f : Nat)
    (h1 : (s.frontList f).isPushOnly = false)
    (h2 : s.FrontDataPulled f = false)
    (h3 : s.eventFrontDataReady f = Sig.pending) :
    pullFrontData s f = some (false, s) := by
  simp [pullFrontData, h1, h2, h3, Sig.query]

/-- Witness for C6: pulling front 1 while its ready event is pending
returns false with no change. -/
theorem pullFrontData_notReady_noop_witness :
    pullFrontData exReadyPending 1 = some (false, exReadyPending) :=
  pullFrontData_notReady_noop exReadyPending 1 (by decide) (by decide)
    (by decide)

/-- C5: when pullFrontData issues a transfer for a non-push-only front whose
ready event has completed, the number of scalar values transferred is the
front's R-value count, plus the contribution-block row count times the
front's column extent exactly when the front is staged. -/
theorem pullFrontData_transfer_count (s : Sched) (f : Nat)
    (h1 : (s.frontList f).isPushOnly = false)
    (h2 : s.FrontDataPulled f = false)
    (h3 : s.eventFrontDataReady f = Sig.signaled) :
    ∃ s2, pullFrontData s f = some (true, s2) ∧
      s2.transfers = s.transfers ++
        [(f, (s.frontList f).getNumRValues +
          (if (s.frontList f).isStaged = true then
            (s.frontList f).sparseMeta.cm * (s.frontList f).fn
          else 0))] := by
  have h4 : pullFrontData s f = some (true,
      { s with
        eventFrontDataReady := upd s.eventFrontDataReady f Sig.destroyed
        eventFrontDataPulled := upd s.eventFrontDataPulled f Sig.pending
        transfers := s.transfers ++
          [(f, (s.frontList f).getNumRValues +
            (if (s.frontList f).isStaged = true then
              (s.frontList f).sparseMeta.cm * (s.frontList f).fn
            else 0))]
        FrontDataPulled := upd s.FrontDataPulled f true }) := by
    simp [pullFrontData, h1, h2, h3, Sig.query]
  exact ⟨_, h4, rfl⟩

/-- Witness for C5: pulling the staged sparse front 1 (7 R values, cm = 3,
fn = 5) transfers 7 + 3 * 5 values. -/
theorem pullFrontData_transfer_count_witness :
    ∃ s2, pullFrontData exReadyDone 1 = some (true, s2) ∧
      s2.transfers = exReadyDone.transfers ++
        [(1, (exReadyDone.frontList 1).getNumRValues +
          (if (exReadyDone.frontList 1).isStaged = true then
            (exReadyDone.frontList 1).sparseMeta.cm *
              (exReadyDone.frontList 1).fn
          else 0))] :=
  pullFrontData_transfer_count exReadyDone 1 (by decide) (by decide)
    (by decide)

theorem removeActive_swap (s : Sched) (f pos : Nat)
    (h : s.afPinv f = some pos) :
    (removeActive s f).numActiveFronts = s.numActiveFronts - 1 ∧
    (removeActive s f).afPinv f = none ∧
    (0 < s.numActiveFronts - 1 →
      (removeActive s f).afPerm pos = s.afPerm (s.numActiveFronts - 1) ∧
      (s.afPerm (s.numActiveFronts - 1) ≠ f →
        (removeActive s f).afPinv (s.afPerm (s.numActiveFronts - 1))
          = some pos)) := by
  refine ⟨rfl, removeActive_afPinv_self s f, fun hn => ⟨?_, fun hr => ?_⟩⟩
  · rw [removeActive_afPerm_eq]; simp [h, hn]
  · rw [removeActive_afPinv_eq]; simp [h, hn, hr]

/-- C4: a successful finishFront on an active front (push-only, or with its
pulled event signaled) removes it by swap-with-last: the count drops by one,
its inverse entry becomes EMPTY, and if the set stays non-empty the front at
the last active position moves into the vacated position with both tables
updated for it. -/
theorem finishFront_swapRemove (s : Sched) (f pos : Nat)
    (h1 : s.afPinv f = some pos)
    (h2 : (s.frontList f).isPushOnly = true ∨
      s.eventFrontDataPulled f = Sig.signaled) :
    ∃ s2, finishFront s f = some (true, s2) ∧
      s2.numActiveFronts = s.numActiveFronts - 1 ∧
      s2.afPinv f = none ∧
      (0 < s.numActiveFronts - 1 →
        s2.afPerm pos = s.afPerm (s.numActiveFronts - 1) ∧
        (s.afPerm (s.numActiveFronts - 1) ≠ f →
          s2.afPinv (s.afPerm (s.numActiveFronts - 1)) = some pos)) := by
  by_cases hp : (s.frontList f).isPushOnly = true
  · have hfin : finishFront s f = some (true, removeActive s f) := by
      simp [finishFront, h1, hp]
    exact ⟨removeActive s f, hfin, removeActive_swap s f pos h1⟩
  · simp only [Bool.not_eq_true] at hp
    rcases h2 with h2 | h2
    · rw [h2] at hp; cases hp
    · have hfin : finishFront s f = some (true, removeActive { s with eventFrontDataPulled := upd s.eventFrontDataPulled f Sig.destroyed } f) := by
        simp [finishFront, h1, hp, h2, Sig.query]
      exact ⟨_, hfin, removeActive_swap { s with eventFrontDataPulled := upd s.eventFrontDataPulled f Sig.destroyed } f pos h1⟩

/-- Witness for C4: finishing front 0 out of the two-front example state
with its pulled event signaled; afterwards the set has size 1 with front 1
swapped into position 0. -/
theorem finishFront_swapRemove_witness :
    (∃ s2, finishFront exPulledDone 0 = some (true, s2) ∧
      s2.numActiveFronts = exPulledDone.numActiveFronts - 1 ∧
      s2.afPinv 0 = none ∧
      (0 < exPulledDone.numActiveFronts - 1 →
        s2.afPerm 0
          = exPulledDone.afPerm (exPulledDone.numActiveFronts - 1) ∧
        (exPulledDone.afPerm (exPulledDone.numActiveFronts - 1) ≠ 0 →
          s2.afPinv (exPulledDone.afPerm (exPulledDone.numActiveFronts - 1))
            = some 0))) ∧
    exAfterFinish.numActiveFronts = 1 ∧ exAfterFinish.afPerm 0 = 1 ∧
    exAfterFinish.afPinv 1 = some 0 ∧ exAfterFinish.afPinv 0 = none :=
  ⟨finishFront_swapRemove exPulledDone 0 0 (by decide)
      (Or.inr (by decide)),
   by decide, by decide, by decide, by decide⟩

/-- C7: pullFrontData returns true at once with no side effects on a
push-only front, and after any call that returned true every further call
returns true with the state unchanged. -/
theorem pullFrontData_idempotent (s s2 : Sched) (f : Nat) :
    ((s.frontList f).isPushOnly = true → pullFrontData s f = some (true, s)) ∧
    (pullFrontData s f = some (true, s2) →
      pullFrontData s2 f = some (true, s2)) := by
  constructor
  · intro h; simp [pullFrontData, h]
  · intro h
    by_cases hp : (s.frontList f).isPushOnly = true
    · simp [pullFrontData, hp] at h
      subst h
      simp [pullFrontData, hp]
    · simp only [Bool.not_eq_true] at hp
      by_cases hd : s.FrontDataPulled f = true
      · simp [pullFrontData, hp, hd] at h
        subst h
        simp [pullFrontData, hp, hd]
      · simp only [Bool.not_eq_true] at hd
        cases hq : (s.eventFrontDataReady f).query with
        | none => simp [pullFrontData, hp, hd, hq] at h
        | some b =>
          cases b with
          | false => simp [pullFrontData, hp, hd, hq] at h
          | true =>
            simp [pullFrontData, hp, hd, hq] at h
            subst h
            simp [pullFrontData, hp, upd]

/-- Witness for C7: pulling the push-only front 2 is an immediate true
no-op, and pulling front 1 again right after a successful pull returns true
with no further change. -/
theorem pullFrontData_idempotent_witness :
    pullFrontData exActive 2 = some (true, exActive) ∧
    pullFrontData exAfterPull 1 = some (true, exAfterPull) :=
  ⟨(pullFrontData_idempotent exActive exActive 2).1 (by decide),
   (pullFrontData_idempotent exReadyDone exAfterPull 1).2 (by rfl)⟩

/-- C8: finishFront returns true at once with no side effects on a front
whose inverse entry is already EMPTY, and after any call that returned true
every further call returns true with the state unchanged. -/
theorem finishFront_idempotent (s s2 : Sched) (f : Nat) :
    (s.afPinv f = none → finishFront s f = some (true, s)) ∧
    (finishFront s f = some (true, s2) →
      finishFront s2 f = some (true, s2)) := by
  constructor
  · intro h; simp [finishFront, h]
  · intro h
    by_cases ha : (s.afPinv f).isSome = true
    · by_cases hp : (s.frontList f).isPushOnly = true
      · simp [finishFront, ha, hp] at h
        subst h
        simp [finishFront, removeActive_afPinv_self]
      · simp only [Bool.not_eq_true] at hp
        cases hq : s.eventFrontDataPulled f <;>
          simp [finishFront, ha, hp, hq, Sig.query] at h
        subst h
        simp [finishFront, removeActive_afPinv_self]
    · simp only [Bool.not_eq_true] at ha
      simp [finishFront, ha] at h
      subst h
      simp [finishFront, ha]

/-- Witness for C8: finishing the never-activated front 5 is an immediate
true no-op, and finishing front 0 again right after a successful finish
returns true with no further change. -/
theorem finishFront_idempotent_witness :
    finishFront exInit 5 = some (true, exInit) ∧
    finishFront exAfterFinish 0 = some (true, exAfterFinish) :=
  ⟨(finishFront_idempotent exInit exInit 5).1 (by decide),
   (finishFront_idempotent exPulledDone exAfterFinish 0).2 (by rfl)⟩

/-- C10: for a non-push-only front not yet pulled, pullFrontData is
undefined when the ready event was never created (the query is unguarded),
it is defined whenever that event exists, and a false return happens exactly
with the event pending and leaves the state unchanged. -/
theorem pullFrontData_ready_event_defined (s : Sched) (f : Nat)
    (h1 : (s.frontList f).isPushOnly = false)
    (h2 : s.FrontDataPulled f = false) :
    (s.eventFrontDataReady f = Sig.absent → pullFrontData s f = none) ∧
    (s.eventFrontDataReady f ≠ Sig.absent →
      s.eventFrontDataReady f ≠ Sig.destroyed →
      (pullFrontData s f).isSome = true) ∧
    (∀ s2, pullFrontData s f = some (false, s2) →
      s.eventFrontDataReady f = Sig.pending ∧ s2 = s) := by
  refine ⟨?_, ?_, ?_⟩
  · intro h3; simp [pullFrontData, h1, h2, h3, Sig.query]
  · intro h3 h4
    cases hq : s.eventFrontDataReady f with
    | absent => exact absurd hq h3
    | destroyed => exact absurd hq h4
    | pending => simp [pullFrontData, h1, h2, hq, Sig.query]
    | signaled => simp [pullFrontData, h1, h2, hq, Sig.query]
  · intro s2 h5
    cases hq : s.eventFrontDataReady f with
    | absent => simp [pullFrontData, h1, h2, hq, Sig.query] at h5
    | destroyed => simp [pullFrontData, h1, h2, hq, Sig.query] at h5
    | signaled => simp [pullFrontData, h1, h2, hq, Sig.query] at h5
    | pending =>
      simp [pullFrontData, h1, h2, hq, Sig.query] at h5
      subst h5
      exact ⟨rfl, rfl⟩

/-- Witness for C10: front 1 in the example state has no ready event, so
pulling it is undefined; the other two conjuncts are instantiated there as
well. -/
theorem pullFrontData_ready_event_defined_witness :
    (exActive.eventFrontDataReady 1 = Sig.absent →
      pullFrontData exActive 1 = none) ∧
    (exActive.eventFrontDataReady 1 ≠ Sig.absent →
      exActive.eventFrontDataReady 1 ≠ Sig.destroyed →
      (pullFrontData exActive 1).isSome = true) ∧
    (∀ s2, pullFrontData exActive 1 = some (false, s2) →
      exActive.eventFrontDataReady 1 = Sig.pending ∧ s2 = exActive) :=
  pullFrontData_ready_event_defined exActive 1 (by decide) (by decide)

/-! ### Preservation of the active-set invariant -/

theorem activeInv_init (nf : Nat) (fl : Nat → Front) :
    ActiveInv nf (initSched fl) := by
  constructor <;> simp [initSched]

theorem activateFront_afPerm_eq (s : Sched) (f p : Nat)
    (h : s.afPinv f = none) :
    (activateFront s f).afPerm p =
      if p = s.numActiveFronts then f else s.afPerm p := by
  have h2 : (s.afPinv f).isSome = false := by simp [h]
  simp [activateFront, h2, upd]

theorem activateFront_afPinv_eq (s : Sched) (f g : Nat)
    (h : s.afPinv f = none) :
    (activateFront s f).afPinv g =
      if g = f then some s.numActiveFronts else s.afPinv g := by
  have h2 : (s.afPinv f).isSome = false := by simp [h]
  simp [activateFront, h2, upd]

theorem activateFront_numActive (s : Sched) (f : Nat)
    (h : s.afPinv f = none) :
    (activateFront s f).numActiveFronts = s.numActiveFronts + 1 := by
  have h2 : (s.afPinv f).isSome = false := by simp [h]
  simp [activateFront, h2]

theorem activeInv_activateFront (nf : Nat) (s : Sched) (f : Nat)
    (hf : f < nf) (hs : ActiveInv nf s) :
    ActiveInv nf (activateFront s f) := by
  by_cases h : (s.afPinv f).isSome = true
  · rw [activateFront_of_active s f h]; exact hs
  · have hnone : s.afPinv f = none := by
      cases hh : s.afPinv f with
      | none => rfl
      | some p => rw [hh] at h; simp at h
    refine ⟨?_, ?_, ?_, ?_, ?_⟩
    · intro p hp
      rw [activateFront_numActive s f hnone] at hp
      rw [activateFront_afPerm_eq s f p hnone]
      by_cases hpn : p = s.numActiveFronts
      · simpa [hpn] using hf
      · have hplt : p < s.numActiveFronts := by omega
        simpa [hpn] using hs.perm_lt p hplt
    · intro p hp
      rw [activateFront_numActive s f hnone] at hp
      rw [activateFront_afPerm_eq s f p hnone]
      by_cases hpn : p = s.numActiveFronts
      · rw [if_pos hpn, activateFront_afPinv_eq s f f hnone]
        simp [hpn]
      · rw [if_neg hpn, activateFront_afPinv_eq s f _ hnone]
        have hplt : p < s.numActiveFronts := by omega
        have hne : s.afPerm p ≠ f := by
          intro he
          have h3 := hs.perm_pinv p hplt
          rw [he, hnone] at h3
          cases h3
        rw [if_neg hne]
        exact hs.perm_pinv p hplt
    · intro g p hg
      rw [activateFront_numActive s f hnone]
      rw [activateFront_afPinv_eq s f g hnone] at hg
      by_cases hgf : g = f
      · rw [if_pos hgf] at hg
        injection hg with hg2
        refine ⟨by omega, ?_⟩
        rw [activateFront_afPerm_eq s f p hnone, if_pos hg2.symm, hgf]
      · rw [if_neg hgf] at hg
        obtain ⟨hplt, he⟩ := hs.pinv_perm g p hg
        refine ⟨by omega, ?_⟩
        rw [activateFront_afPerm_eq s f p hnone, if_neg (by omega)]
        exact he
    · intro g hg
      rw [activateFront_afPinv_eq s f g hnone, if_neg (by omega)]
      exact hs.pinv_dom g hg
    · rw [activateFront_numActive s f hnone]
      have hset : (Finset.range nf).filter
            (fun g => ((activateFront s f).afPinv g).isSome)
          = insert f ((Finset.range nf).filter
              (fun g => (s.afPinv g).isSome)) := by
        ext g
        simp only [Finset.mem_filter, Finset.mem_insert, Finset.mem_range,
          activateFront_afPinv_eq s f g hnone]
        by_cases hgf : g = f
        · simp [hgf, hf]
        · simp [hgf]
      rw [hset, Finset.card_insert_of_not_mem
        (by simp [Finset.mem_filter, hnone]), hs.count]

theorem activeInv_removeActive (nf : Nat) (s : Sched) (f pos : Nat)
    (hs : ActiveInv nf s) (h : s.afPinv f = some pos) :
    ActiveInv nf (removeActive s f) := by
  obtain ⟨hposlt, hpf⟩ := hs.pinv_perm f pos h
  have hf : f < nf := by
    by_contra hge
    rw [hs.pinv_dom f (by omega)] at h
    cases h
  have hgetD : (s.afPinv f).getD 0 = pos := by rw [h]; rfl
  have hn : 0 < s.numActiveFronts := by omega
  refine ⟨?_, ?_, ?_, ?_, ?_⟩
  · intro p hp
    rw [removeActive_numActive] at hp
    rw [removeActive_afPerm_eq]
    split_ifs with hc
    · exact hs.perm_lt _ (by omega)
    · exact hs.perm_lt _ (by omega)
  · intro p hp
    rw [removeActive_numActive] at hp
    have hn1 : 0 < s.numActiveFronts - 1 := by omega
    have hr_pinv : s.afPinv (s.afPerm (s.numActiveFronts - 1))
        = some (s.numActiveFronts - 1) := hs.perm_pinv _ (by omega)
    rw [removeActive_afPerm_eq, hgetD]
    by_cases hc : p = pos
    · rw [if_pos ⟨hn1, hc⟩]
      rw [removeActive_afPinv_eq]
      have hrf : s.afPerm (s.numActiveFronts - 1) ≠ f := by
        intro he
        rw [he, h] at hr_pinv
        injection hr_pinv with hh
        omega
      rw [if_neg hrf, if_pos ⟨hn1, rfl⟩, hgetD, hc]
    · rw [if_neg (fun hx => hc hx.2)]
      rw [removeActive_afPinv_eq]
      have hplt : p < s.numActiveFronts := by omega
      have h1 : s.afPerm p ≠ f := by
        intro he
        have h3 := hs.perm_pinv p hplt
        rw [he, h] at h3
        injection h3 with hh
        exact hc hh.symm
      have h2 : s.afPerm p ≠ s.afPerm (s.numActiveFronts - 1) := by
        intro he
        have h3 := hs.perm_pinv p hplt
        rw [he, hr_pinv] at h3
        injection h3 with hh
        omega
      rw [if_neg h1, if_neg (fun hx => h2 hx.2)]
      exact hs.perm_pinv p hplt
  · intro g p hg
    rw [removeActive_numActive]
    rw [removeActive_afPinv_eq] at hg
    by_cases hgf : g = f
    · rw [if_pos hgf] at hg; cases hg
    · rw [if_neg hgf] at hg
      by_cases hc : 0 < s.numActiveFronts - 1 ∧
          g = s.afPerm (s.numActiveFronts - 1)
      · rw [if_pos hc, hgetD] at hg
        injection hg with hh
        subst hh
        obtain ⟨hn1, hgr⟩ := hc
        have hr_pinv : s.afPinv (s.afPerm (s.numActiveFronts - 1))
            = some (s.numActiveFronts - 1) := hs.perm_pinv _ (by omega)
        have hposn1 : pos ≠ s.numActiveFronts - 1 := by
          intro he
          apply hgf
          rw [hgr, ← he]
          exact hpf
        refine ⟨by omega, ?_⟩
        rw [removeActive_afPerm_eq, hgetD, if_pos ⟨hn1, rfl⟩]
        exact hgr.symm
      · rw [if_neg hc] at hg
        obtain ⟨hplt, he⟩ := hs.pinv_perm g p hg
        have hn1 : 0 < s.numActiveFronts - 1 := by
          by_contra hh
          have hp0 : p = 0 := by omega
          have hpos0 : pos = 0 := by omega
          apply hgf
          rw [← he, hp0, ← hpos0]
          exact hpf
        have hgr : g ≠ s.afPerm (s.numActiveFronts - 1) :=
          fun hh => hc ⟨hn1, hh⟩
        have hpn1 : p ≠ s.numActiveFronts - 1 := by
          intro hh
          exact hgr (by rw [← he, hh])
        have hppos : p ≠ pos := by
          intro hh
          apply hgf
          rw [← he, hh]
          exact hpf
        refine ⟨by omega, ?_⟩
        rw [removeActive_afPerm_eq, hgetD,
          if_neg (fun hx => hppos hx.2)]
        exact he
  · intro g hg
    rw [removeActive_afPinv_eq]
    have hgf : g ≠ f := by omega
    rw [if_neg hgf]
    by_cases hc : 0 < s.numActiveFronts - 1 ∧
        g = s.afPerm (s.numActiveFronts - 1)
    · exfalso
      have hlt := hs.perm_lt (s.numActiveFronts - 1) (by omega)
      have hgr := hc.2
      omega
    · rw [if_neg hc]
      exact hs.pinv_dom g hg
  · rw [removeActive_numActive]
    have hset : (Finset.range nf).filter
          (fun g => ((removeActive s f).afPinv g).isSome)
        = ((Finset.range nf).filter
            (fun g => (s.afPinv g).isSome)).erase f := by
      ext g
      simp only [Finset.mem_filter, Finset.mem_erase, Finset.mem_range,
        removeActive_afPinv_eq]
      by_cases hgf : g = f
      · simp [hgf]
      · rw [if_neg hgf]
        by_cases hc : 0 < s.numActiveFronts - 1 ∧
            g = s.afPerm (s.numActiveFronts - 1)
        · rw [if_pos hc]
          have hgis : (s.afPinv g).isSome = true := by
            rw [hc.2, hs.perm_pinv _ (by omega)]
            rfl
          simp [hgf, hgis]
        · rw [if_neg hc]
          simp [hgf]
    rw [hset, Finset.card_erase_of_mem
      (by simp [Finset.mem_filter, Finset.mem_range, hf, h]), hs.count]

theorem activeInv_of_eq (nf : Nat) (s s2 : Sched) (hs : ActiveInv nf s)
    (hperm : s2.afPerm = s.afPerm) (hpinv : s2.afPinv = s.afPinv)
    (hn : s2.numActiveFronts = s.numActiveFronts) : ActiveInv nf s2 := by
  refine ⟨?_, ?_, ?_, ?_, ?_⟩
  · simp only [hperm, hn]; exact hs.perm_lt
  · simp only [hperm, hpinv, hn]; exact hs.perm_pinv
  · simp only [hperm, hpinv, hn]; exact hs.pinv_perm
  · simp only [hpinv]; exact hs.pinv_dom
  · simp only [hpinv, hn]; exact hs.count

theorem pullFrontData_active_eq (s s2 : Sched) (f : Nat) (b : Bool)
    (h : pullFrontData s f = some (b, s2)) :
    s2.afPerm = s.afPerm ∧ s2.afPinv = s.afPinv ∧
      s2.numActiveFronts = s.numActiveFronts := by
  by_cases hp : (s.frontList f).isPushOnly = true
  · simp [pullFrontData, hp] at h
    obtain ⟨hb, hs2⟩ := h
    subst hs2
    exact ⟨rfl, rfl, rfl⟩
  · simp only [Bool.not_eq_true] at hp
    by_cases hd : s.FrontDataPulled f = true
    · simp [pullFrontData, hp, hd] at h
      obtain ⟨hb, hs2⟩ := h
      subst hs2
      exact ⟨rfl, rfl, rfl⟩
    · simp only [Bool.not_eq_true] at hd
      cases hq : (s.eventFrontDataReady f).query with
      | none => simp [pullFrontData, hp, hd, hq] at h
      | some b2 =>
        cases b2 with
        | false =>
          simp [pullFrontData, hp, hd, hq] at h
          obtain ⟨hb, hs2⟩ := h
          subst hs2
          exact ⟨rfl, rfl, rfl⟩
        | true =>
          simp [pullFrontData, hp, hd, hq] at h
          obtain ⟨hb, hs2⟩ := h
          subst hs2
          exact ⟨rfl, rfl, rfl⟩

theorem activeInv_finishFront (nf : Nat) (s s2 : Sched) (f : Nat) (b : Bool)
    (hs : ActiveInv nf s) (h : finishFront s f = some (b, s2)) :
    ActiveInv nf s2 := by
  by_cases ha : (s.afPinv f).isSome = true
  · obtain ⟨pos, hpos⟩ := Option.isSome_iff_exists.mp ha
    by_cases hp : (s.frontList f).isPushOnly = true
    · simp [finishFront, ha, hp] at h
      obtain ⟨hb, hs2⟩ := h
      subst hs2
      exact activeInv_removeActive nf s f pos hs hpos
    · simp only [Bool.not_eq_true] at hp
      cases hq : s.eventFrontDataPulled f <;>
        simp [finishFront, ha, hp, hq, Sig.query] at h
      · obtain ⟨hb, hs2⟩ := h
        subst hs2
        exact hs
      · obtain ⟨hb, hs2⟩ := h
        subst hs2
        have hsd : ActiveInv nf { s with eventFrontDataPulled := upd s.eventFrontDataPulled f Sig.destroyed } :=
          ⟨hs.perm_lt, hs.perm_pinv, hs.pinv_perm, hs.pinv_dom, hs.count⟩
        exact activeInv_removeActive nf _ f pos hsd hpos
  · simp only [Bool.not_eq_true] at ha
    simp [finishFront, ha] at h
    obtain ⟨hb, hs2⟩ := h
    subst hs2
    exact hs

theorem activeInv_applyOp (nf : Nat) (s s2 : Sched) (o : SchedOp)
    (hs : ActiveInv nf s) (ho : ∀ g, o = SchedOp.activate g → g < nf)
    (h : applyOp s o = some s2) : ActiveInv nf s2 := by
  cases o with
  | activate f =>
    simp [applyOp] at h
    subst h
    exact activeInv_activateFront nf s f (ho f rfl) hs
  | pull f =>
    simp only [applyOp, Option.map_eq_some'] at h
    obtain ⟨⟨b, s3⟩, h1, h2⟩ := h
    obtain ⟨hperm, hpinv, hn⟩ := pullFrontData_active_eq s s3 f b h1
    subst h2
    exact activeInv_of_eq nf s _ hs hperm hpinv hn
  | finish f =>
    simp only [applyOp, Option.map_eq_some'] at h
    obtain ⟨⟨b, s3⟩, h1, h2⟩ := h
    subst h2
    exact activeInv_finishFront nf s s3 f b hs h1
  | createReady f =>
    simp [applyOp] at h
    subst h
    exact activeInv_of_eq nf s _ hs rfl rfl rfl
  | signalReady f =>
    simp [applyOp] at h
    subst h
    exact activeInv_of_eq nf s _ hs rfl rfl rfl
  | signalPulled f =>
    simp [applyOp] at h
    subst h
    exact activeInv_of_eq nf s _ hs rfl rfl rfl

theorem activeInv_runOps (nf : Nat) (ops : List SchedOp) :
    ∀ s s2 : Sched, ActiveInv nf s →
      (∀ g, SchedOp.activate g ∈ ops → g < nf) →
      runOps s ops = some s2 → ActiveInv nf s2 := by
  induction ops with
  | nil =>
    intro s s2 hs _ h
    simp [runOps] at h
    subst h
    exact hs
  | cons o os ih =>
    intro s s2 hs hops h
    simp only [runOps, Option.bind_eq_some] at h
    obtain ⟨s1, h1, h2⟩ := h
    refine ih s1 s2 ?_ (fun g hg => hops g (List.mem_cons_of_mem o hg)) h2
    refine activeInv_applyOp nf s s1 o hs (fun g hg => hops g ?_) h1
    subst hg
    exact List.mem_cons_self _ _

/-- C1: starting from the documented initial state, after any defined
sequence of scheduler operations whose activations use valid front ids,
the active-set index satisfies: every active position maps through afPerm
and back through afPinv to itself, every non-EMPTY afPinv entry points back
to its front, every front id outside the active set has an EMPTY afPinv
entry, and numActiveFronts counts the fronts with non-EMPTY entries. -/
theorem activeSet_invariant (nf : Nat) (fl : Nat → Front)
    (ops : List SchedOp) (s : Sched)
    (hops : ∀ f, SchedOp.activate f ∈ ops → f < nf)
    (hrun : runOps (initSched fl) ops = some s) :
    (∀ p, p < s.numActiveFronts → s.afPinv (s.afPerm p) = some p) ∧
    (∀ f p, s.afPinv f = some p → s.afPerm p = f) ∧
    (∀ f, f < nf → (∀ p, p < s.numActiveFronts → s.afPerm p ≠ f) →
      s.afPinv f = none) ∧
    ((Finset.range nf).filter (fun f => (s.afPinv f).isSome)).card
      = s.numActiveFronts := by
  have hinv := activeInv_runOps nf ops (initSched fl) s
    (activeInv_init nf fl) hops hrun
  refine ⟨hinv.perm_pinv, fun f p hp => (hinv.pinv_perm f p hp).2, ?_,
    hinv.count⟩
  intro f hf hnp
  cases hh : s.afPinv f with
  | none => rfl
  | some p =>
    obtain ⟨hplt, he⟩ := hinv.pinv_perm f p hh
    exact absurd he (hnp p hplt)

/-- Witness for C1: the example lifecycle run (three activations, a finish
of the push-only front, and a pull/finish of the sparse front once its
events complete) is defined, and its final state satisfies every clause. -/
theorem activeSet_invariant_witness :
    (∀ p, p < exFinal.numActiveFronts →
      exFinal.afPinv (exFinal.afPerm p) = some p) ∧
    (∀ f p, exFinal.afPinv f = some p → exFinal.afPerm p = f) ∧
    (∀ f, f < 3 → (∀ p, p < exFinal.numActiveFronts →
      exFinal.afPerm p ≠ f) → exFinal.afPinv f = none) ∧
    ((Finset.range 3).filter (fun f => (exFinal.afPinv f).isSome)).card
      = exFinal.numActiveFronts :=
  activeSet_invariant 3 exFL exOps exFinal
    (by
      intro f hf
      simp [exOps] at hf
      rcases hf with rfl | rfl | rfl <;> omega)
    (by rfl)

end GQE
